import Mathlib

/-!
Verification development for the `dfind` filesystem indexer / search tool
(`src/tools/dfind/dfind.py`).  The Python source is shallowly embedded:
pure helpers become Lean functions, the SQLite store becomes explicit lists
of records, OS-dependent behaviour (drive enumeration, `stat`, path
resolution, hashing) is injected as explicit environment parameters, and
fallible Python code (raising `OSError`) is modelled with `Except`/`Option`
carrying the errno.
-/

namespace DfindModel

/-! ## Character / string helpers (SQLite comparison semantics)

SQLite's default `LIKE` operator is case-insensitive for the ASCII range
only: it folds `A`-`Z` before comparing.  `PRAGMA case_sensitive_like = on`
switches `LIKE` to plain character equality.  The `=` operator on TEXT
columns uses the column's default BINARY collation, i.e. exact string
equality, and is unaffected by the pragma. -/

def asciiLower (c : Char) : Char :=
  c.toLower

/-- One-character comparison used by SQLite `LIKE`: literal equality when
`case_sensitive_like` is on, ASCII case-folded equality otherwise. -/
def likeCharEq (cs : Bool) (p c : Char) : Bool :=
  if cs then p = c else asciiLower p = asciiLower c

/-- SQLite `LIKE` pattern matching over explicit character lists:
`%` matches any (possibly empty) sequence, `_` matches exactly one
character, every other pattern character matches a single text character
via `likeCharEq`.  `cs` is the `case_sensitive_like` pragma state. -/
def likeMatch (cs : Bool) : List Char → List Char → Bool
  | [], ts => ts.isEmpty
  | p :: ps, ts =>
    if p = '%' then
      likeMatch cs ps ts ||
        (match ts with
         | [] => false
         | _ :: ts' => likeMatch cs (p :: ps) ts')
    else
      match ts with
      | [] => false
      | c :: ts' =>
        if p = '_' then likeMatch cs ps ts'
        else likeCharEq cs p c && likeMatch cs ps ts'
termination_by ps ts => (ps.length, ts.length)

/-- `name LIKE pattern` at the level of Lean strings. -/
def sqliteLike (cs : Bool) (pattern text : String) : Bool :=
  likeMatch cs pattern.data text.data

/-- Embedding of `search.replace('*', '%')` (single-character replace):
every `*` becomes `%`, every other character is copied unchanged. -/
def replaceStar : List Char → List Char
  | [] => []
  | c :: cs => (if c = '*' then '%' else c) :: replaceStar cs

def substWildcards (s : String) : String :=
  String.mk (replaceStar s.data)

/-! ## Record types (rows of the SQLite store) -/

/-- A row of the `files` table as read back by `SELECT *`
(`id` is assigned by SQLite at insert time). -/
structure FileRec where
  id : Nat
  drive : String
  fullpath : String
  fullpath_hash : String
  name : String
  name_hash : String
  size : Nat
  modify_date : ℚ
  create_date : ℚ
  deriving Repr, DecidableEq

/-- The value tuple bound by the `INSERT INTO files (...) VALUES (?,...)`
statement in `indexSingleDrive` — everything except the autoincrement id. -/
structure FileValues where
  drive : String
  fullpath : String
  fullpath_hash : String
  name : String
  name_hash : String
  size : Nat
  modify_date : ℚ
  create_date : ℚ
  deriving Repr, DecidableEq

/-- A row of the `folders` table (id omitted; never read back by a claim). -/
structure FolderRecord where
  fullpath : String
  fullpath_hash : String
  name : String
  name_hash : String
  size : Nat
  modify_date : ℚ
  create_date : ℚ
  deriving Repr, DecidableEq

abbrev FileRecList := List FileRec

/-! ## Query engine (`find`) -/

/-- Result bundle of `find` (`DFindResultList` in the source).  The wall
clock fields `Took`/`TookStr` and the traced SQL text depend on real time
and the database driver and are not part of the embedding. -/
structure DFindResultList where
  OriginalSearch : String
  Count : Nat
  List : FileRecList
  CaseSensitive : Bool
  Wildcard : Bool
  deriving Repr, DecidableEq

/-- The WHERE clause of the exact-match query
`SELECT * FROM files WHERE name = ? OR fullpath = ?`
(BINARY collation, i.e. plain string equality, pragma-independent). -/
def exactRowMatch (search : String) (r : FileRec) : Bool :=
  r.name == search || r.fullpath == search

/-- The WHERE clause of the wildcard query
`SELECT * FROM files WHERE name LIKE ? OR fullpath LIKE ?`
under `case_sensitive_like = cs`. -/
def likeRowMatch (cs : Bool) (search : String) (r : FileRec) : Bool :=
  sqliteLike cs search r.name || sqliteLike cs search r.fullpath

/-- Embedding of `find(search, noWildcard, case_sensitive)` run against a
store whose `files` table holds `rows`.  Mirrors the source: the wildcard
substitution happens first and unconditionally; the
`PRAGMA case_sensitive_like = on` is issued only when `case_sensitive`
and only affects `LIKE`; exact mode uses `=`. -/
def find (rows : List FileRec) (search : String)
    (noWildcard : Bool := false) (case_sensitive : Bool := false) :
    DFindResultList :=
  let search := substWildcards search
  let rlist :=
    if noWildcard then rows.filter (exactRowMatch search)
    else rows.filter (likeRowMatch case_sensitive search)
  { OriginalSearch := search
    Count := rlist.length
    List := rlist
    CaseSensitive := case_sensitive
    Wildcard := !noWildcard }

/-! ## The store and the "top N" reporter -/

/-- The record sets of one generation of the SQLite store. -/
structure Store where
  files : List FileRec
  folders : List FolderRecord

inductive TopKind where
  | files
  | folders
  deriving Repr, DecidableEq

/-- Ordering used by `ORDER BY size` (ascending). -/
def sizeAsc (a b : Nat × String) : Prop := a.1 ≤ b.1

/-- Ordering used by `ORDER BY size DESC`. -/
def sizeDesc (a b : Nat × String) : Prop := b.1 ≤ a.1

instance : DecidableRel sizeAsc := fun a b => inferInstanceAs (Decidable (a.1 ≤ b.1))

instance : DecidableRel sizeDesc := fun a b => inferInstanceAs (Decidable (b.1 ≤ a.1))

instance : IsTotal (Nat × String) sizeAsc := ⟨fun a b => Nat.le_total a.1 b.1⟩

instance : IsTotal (Nat × String) sizeDesc := ⟨fun a b => Nat.le_total b.1 a.1⟩

instance : IsTrans (Nat × String) sizeAsc := ⟨fun _ _ _ hab hbc => le_trans hab hbc⟩

instance : IsTrans (Nat × String) sizeDesc := ⟨fun _ _ _ hab hbc => le_trans hbc hab⟩

/-- Embedding of `top(top_type, top_max, ascending)`:
`SELECT * FROM {top_type} ORDER BY size [DESC] LIMIT top_max`, projected to
the `(size, fullpath)` pair each result line prints.  SQL leaves the order
of equal-size rows to the engine; the model fixes the stable
insertion-sort order, one of the permitted orders. -/
def top (db : Store) (t : TopKind) (top_max : Nat) (ascending : Bool) :
    List (Nat × String) :=
  let rows :=
    match t with
    | .files => db.files.map (fun r => (r.size, r.fullpath))
    | .folders => db.folders.map (fun r => (r.size, r.fullpath))
  let sorted :=
    if ascending then List.insertionSort sizeAsc rows
    else List.insertionSort sizeDesc rows
  sorted.take top_max

/-! ## IEC byte-size formatting (`sizeToIECString`) -/

def iecUnits : List String := ["", "Ki", "Mi", "Gi", "Ti", "Pi", "Ei", "Zi", "Yi"]

/-- Python `int()` / `'%d' %` truncation of a real value toward zero. -/
def pyTrunc (q : ℚ) : ℤ :=
  if 0 ≤ q then ⌊q⌋ else ⌈q⌉

/-- The `%3.1f` rendering (one decimal place; every value the formatter
sees is ≥ 1.0, so the width-3 minimum never pads).  Exact rational
rounding stands in for the float rounding. -/
def fmtFixed1 (q : ℚ) : String :=
  let t : ℤ := round (q * 10)
  toString (t.fdiv 10) ++ "." ++ toString (t.fmod 10)

/-- Embedding of `sizeToIECString(num)`.  `math.log(num, 1024)` raises
`ValueError: math domain error` when `num == 0`, modelled as `none`;
for `num ≥ 1` the truncated logarithm is `Nat.log 1024 num`, the value is
`num / 1024^magnitude`, and the unit index is clamped to 7 (`Zi`) after
the value was already computed with the unclamped magnitude. -/
def sizeToIECString (num : Nat) : Option String :=
  if num = 0 then none
  else
    let magnitude := Nat.log 1024 num
    let val : ℚ := (num : ℚ) / ((1024 : ℚ) ^ magnitude)
    let magClamped := if magnitude > 7 then 7 else magnitude
    some (fmtFixed1 val ++ iecUnits.getD magClamped "" ++ "B")

/-- The print loop of `top`: format each row's size in order, dying on the
first row whose size cannot be formatted (the uncaught `ValueError`). -/
def formatSizes : List (Nat × String) → Option (List String)
  | [] => some []
  | p :: ps =>
    match sizeToIECString p.1 with
    | none => none
    | some s => (formatSizes ps).map (fun rest => s :: rest)

/-- The per-row formatting `top` performs while printing: the IEC size
string of each returned row.  The whole listing fails (`none`) as soon as
one row's size cannot be formatted. -/
def topPrintLines (db : Store) (t : TopKind) (top_max : Nat)
    (ascending : Bool) : Option (List String) :=
  formatSizes (top db t top_max ascending)

/-! ## Duration formatting (`pretty_time_delta`) -/

/-- Embedding of `pretty_time_delta(delta)` for a `delta` given in seconds
(Python arrives here with a float/timedelta; the rational `delta` models
`delta.total_seconds()`).  `divmod` on Python ints is floor
division/modulo, hence `Int.fdiv`/`Int.fmod`. -/
def pretty_time_delta (delta : ℚ) : String :=
  let seconds : ℤ := pyTrunc delta
  let days : ℤ := seconds.fdiv 86400
  let seconds : ℤ := seconds.fmod 86400
  let hours : ℤ := seconds.fdiv 3600
  let seconds : ℤ := seconds.fmod 3600
  let minutes : ℤ := seconds.fdiv 60
  let seconds : ℤ := seconds.fmod 60
  let milliseconds : ℚ := delta * 1000
  if days > 0 then
    toString days ++ "d" ++ toString hours ++ "h" ++ toString minutes ++ "m" ++
      toString seconds ++ "s"
  else if hours > 0 then
    toString hours ++ "h" ++ toString minutes ++ "m" ++ toString seconds ++ "s"
  else if minutes > 0 then
    toString minutes ++ "m" ++ toString seconds ++ "s"
  else if seconds > 0 then
    toString seconds ++ "s"
  else
    toString (pyTrunc milliseconds) ++ "ms"

/-- The spec's description of the same string, written from its words:
under one second, whole milliseconds as `<n>ms`; otherwise the
`<n>d<n>h<n>m<n>s` rendering with the leading zero-valued units (days
first, then hours, then minutes) dropped. -/
def pretty_time_spec (delta : ℚ) : String :=
  if delta < 1 then
    toString (pyTrunc (delta * 1000)) ++ "ms"
  else
    let t : ℤ := pyTrunc delta
    let d := t.fdiv 86400
    let h := (t.fmod 86400).fdiv 3600
    let m := ((t.fmod 86400).fmod 3600).fdiv 60
    let s := ((t.fmod 86400).fmod 3600).fmod 60
    String.join
      (([(d, "d"), (h, "h"), (m, "m")].dropWhile (fun u => u.1 == 0)).map
        (fun u => toString u.1 ++ u.2)) ++ toString s ++ "s"

/-! ## Root resolution (`sanitizeDriveList` / `getDriveRoots`)

`win32api.GetLogicalDriveStrings()` is an injected capability: the model
receives the already-split list of drive strings.  Python `set` iteration
order is unspecified; the model uses `List.dedup`, whose membership is the
set membership. -/

/-- Python `str.upper()` on the character sequence (ASCII uppercasing —
drive strings are ASCII). -/
def pyUpper (s : String) : String :=
  String.mk (s.data.map Char.toUpper)

/-- `[str(x).upper()[0:2] for x in l]`: uppercase, then the first two
characters. -/
def sanitizeDriveList (l : List String) : List String :=
  l.map (fun x => String.mk ((pyUpper x).data.take 2))

/-- Embedding of `getDriveRoots(ignoredRoots, customPlaces,
whitelistedDrives)` with the OS drive enumeration passed in. -/
def getDriveRoots (allDrives : List String) (ignoredRoots : List String)
    (customPlaces : List String) (whitelistedDrives : List String) :
    List String :=
  let drives := sanitizeDriveList allDrives
  let drives := drives.dedup.filter (fun d => !ignoredRoots.contains d)
  let drives :=
    if whitelistedDrives.isEmpty then drives
    else drives.filter (fun d => whitelistedDrives.contains d)
  customPlaces.reverse ++ drives

/-! ## Walker entries and `indexSingleDrive` -/

/-- Everything `indexSingleDrive` reads from the OS about one discovered
file while building its row: `entry.resolve()`, `entry.size()`,
`entry.modifyDate()`, `entry.createDate()`. -/
structure EntryMeta where
  resolved : String
  size : Nat
  mtime : ℚ
  ctime : ℚ
  deriving Repr, DecidableEq

deriving instance DecidableEq for Except

/-- One path yielded by `scantree`: its `parts`, `root` and `name`
components (pure string data of the path object) plus the outcome of the
OS calls above — `.error errno` when they raise
`PermissionError`/`FileNotFoundError`/`OSError`. -/
structure DirEntry where
  parts : List String
  root : String
  name : String
  stat : Except Nat EntryMeta
  deriving Repr, DecidableEq

/-- The fixed exclusion set of `indexSingleDrive`. -/
def reservedNames : List String := ["$RECYCLE.BIN", "System Volume Information"]

/-- The value tuple inserted for one successfully stat-ed entry. -/
def rowOf (hashString : String → String) (e : DirEntry) (m : EntryMeta) :
    FileValues :=
  { drive := e.root
    fullpath := m.resolved
    fullpath_hash := hashString m.resolved
    name := e.name
    name_hash := hashString e.name
    size := m.size
    modify_date := m.mtime
    create_date := m.ctime }

/-- Embedding of the `indexSingleDrive` loop body: entries whose second
path component (`entry.parts[1]`, checked only when the path has at least
two components) is reserved are skipped before any OS access; entries
whose OS calls raise are skipped by the `except ... continue`; the rest
are inserted in traversal order. -/
def indexSingleDrive (hashString : String → String) :
    List DirEntry → List FileValues
  | [] => []
  | e :: es =>
    if e.parts.length ≥ 2 ∧ e.parts.getD 1 "" ∈ reservedNames then
      indexSingleDrive hashString es
    else
      match e.stat with
      | .ok m => rowOf hashString e m :: indexSingleDrive hashString es
      | .error _ => indexSingleDrive hashString es

/-! ## Aggregation pass and the whole `indexDrives` run -/

/-- Everything `Path(folder)` and its methods read from the OS during the
folder-insert loop: `str(p.resolve())`, `p.name`, `p.modifyDate()`,
`p.createDate()`. -/
structure FolderMeta where
  resolved : String
  name : String
  mtime : ℚ
  ctime : ℚ
  deriving Repr, DecidableEq

/-- The injected system environment of an indexing run.
`hashString` is the surrogate-hash function (xxh64 uppercase hex digest,
out of scope per the spec).  `parentOf s` is `Path(s).parent` as a
dictionary key, with `.error errno` when the `Path` construction raises
`OSError` (e.g. errno 22, "invalid argument": embedded null byte or an
over-long path on Windows).  `folderMeta f` is the data of `Path(folder)`
in the second loop, with `.error errno` when any of those calls raises. -/
structure SysEnv where
  hashString : String → String
  parentOf : String → Except Nat String
  folderMeta : String → Except Nat FolderMeta

/-- Python-dict accumulation: add `v` at key `k`, keeping first-insertion
order, appending a new key at the end. -/
def bump : List (String × Nat) → String → Nat → List (String × Nat)
  | [], k, v => [(k, v)]
  | (k', v') :: rest, k, v =>
    if k' = k then (k', v' + v) :: rest else (k', v') :: bump rest k v

/-- The first aggregation loop (`for row in c.fetchall(): ...`): resolve
each stored path; on `OSError` with errno 22 silently `continue`, on any
other `OSError` report the path and `exit(1)` (`.error`); otherwise add
the row's size to its parent's folder sum and to the grand total. -/
def aggLoop (env : SysEnv) : List FileValues → List (String × Nat) → Nat →
    Except (String × Nat) (List (String × Nat) × Nat)
  | [], acc, total => .ok (acc, total)
  | r :: rs, acc, total =>
    match env.parentOf r.fullpath with
    | .error e =>
      if e = 22 then aggLoop env rs acc total else .error (r.fullpath, e)
    | .ok par => aggLoop env rs (bump acc par r.size) (total + r.size)

/-- The second loop (`for folder, size in folderSizes.items(): ...`)
building a `FolderRecord` per accumulated folder; an OS error here is an
uncaught exception (returned as `some (folder, errno)`) that kills the
run after the records before it were already inserted. -/
def folderInsertLoop (env : SysEnv) :
    List (String × Nat) → List FolderRecord × Option (String × Nat)
  | [] => ([], none)
  | (f, sz) :: rest =>
    match env.folderMeta f with
    | .error e => ([], some (f, e))
    | .ok m =>
      let nm := if m.name = "" then m.resolved else m.name
      let record : FolderRecord :=
        { fullpath := m.resolved
          fullpath_hash := env.hashString m.resolved
          name := nm
          name_hash := env.hashString nm
          size := sz
          modify_date := m.mtime
          create_date := m.ctime }
      let tail := folderInsertLoop env rest
      (record :: tail.1, tail.2)

/-- One write issued to the SQLite store, in program order. -/
inductive StoreOp where
  | deleteOldDb
  | createTables
  | insertFile (v : FileValues)
  | insertFolder (f : FolderRecord)
  | setMeta (key : String) (value : Nat)
  deriving Repr, DecidableEq

/-- Terminal state of one `indexDrives` run. -/
inductive IndexOutcome where
  | noRoots
  | aggFatal (path : String) (errno : Nat)
  | folderCrash (folder : String) (errno : Nat)
  | done (folders : List FolderRecord) (totalSize : Nat)
  deriving Repr, DecidableEq

/-- The configuration constants `IGNORED_DRIVES`, `CUSTOM_PLACES`,
`WHITELISTED_DRIVES` (as lists; the source also accepts a bare string and
wraps it in a singleton list before use). -/
structure Config where
  ignoredDrives : List String
  customPlaces : List String
  whitelistedDrives : List String

/-- The root set `indexDrives` computes before touching anything:
`getDriveRoots(sanitize(IGNORED_DRIVES), CUSTOM_PLACES,
sanitize(WHITELISTED_DRIVES))`. -/
def resolvedRoots (cfg : Config) (allDrives : List String) : List String :=
  getDriveRoots allDrives (sanitizeDriveList cfg.ignoredDrives)
    cfg.customPlaces (sanitizeDriveList cfg.whitelistedDrives)

/-- The full content of the `files` table after the scanning phase:
one `indexSingleDrive` pass per resolved root.  (The multi-threaded mode
interleaves the per-root inserts nondeterministically; the model fixes
the sequential single-threaded order, which every claim below is
insensitive to.) -/
def indexedFiles (env : SysEnv) (scanEntries : String → List DirEntry)
    (roots : List String) : List FileValues :=
  (roots.map (fun d => indexSingleDrive env.hashString (scanEntries d))).flatten

/-- Embedding of one whole `indexDrives` run, emitting the trace of store
writes it issues together with its terminal state.  `scanEntries d` is the
`scantree(d)` enumeration for root `d`; `dbExists` is whether an old
`dfind.db` is present (it is deleted first when so). -/
def indexDrives (cfg : Config) (allDrives : List String) (dbExists : Bool)
    (scanEntries : String → List DirEntry) (env : SysEnv) :
    List StoreOp × IndexOutcome :=
  let roots := resolvedRoots cfg allDrives
  if roots.isEmpty then ([], .noRoots)
  else
    let pre := (if dbExists then [StoreOp.deleteOldDb] else []) ++
      [StoreOp.createTables]
    let files := indexedFiles env scanEntries roots
    let fileOps := files.map StoreOp.insertFile
    match aggLoop env files [] 0 with
    | .error pe => (pre ++ fileOps, .aggFatal pe.1 pe.2)
    | .ok (fsizes, total) =>
      let inserted := folderInsertLoop env fsizes
      match inserted.2 with
      | some fe =>
        (pre ++ fileOps ++ inserted.1.map StoreOp.insertFolder,
          .folderCrash fe.1 fe.2)
      | none =>
        (pre ++ fileOps ++ inserted.1.map StoreOp.insertFolder ++
          [StoreOp.setMeta "totalSize" total], .done inserted.1 total)

/-! ## Derived notions used by the claim statements -/

/-- The dictionary key a row is grouped under during aggregation, when its
stored path resolves (`Path(fullpath).parent`); `none` when `Path`
construction raises. -/
def parentKey (env : SysEnv) (r : FileValues) : Option String :=
  (env.parentOf r.fullpath).toOption

def sumSizes (l : List FileValues) : Nat :=
  (l.map (fun r => r.size)).sum

def keysOf (acc : List (String × Nat)) : List String := acc.map Prod.fst

/-- `str(Path(k).resolve())` of a folder key, when its metadata is
readable. -/
def folderResolvedOf (env : SysEnv) (k : String) : Option String :=
  (env.folderMeta k).toOption.map FolderMeta.resolved

/-- The spec-side notion "resolved parent path" of a FileRecord: the
stored path's parent, resolved the way the folder-insert loop resolves
it; `none` when the record's path cannot be resolved at all. -/
def resolvedParentPath (env : SysEnv) (r : FileValues) : Option String :=
  match env.parentOf r.fullpath with
  | .error _ => none
  | .ok k => folderResolvedOf env k

/-- The parent keys occurring in a run. -/
def aggKeys (env : SysEnv) (files : List FileValues) : List String :=
  files.filterMap (parentKey env)

/-! ## Concrete inputs used by counterexamples and witnesses -/

/-- The stored row of the spec's case-sensitivity example: a file named
`foo.txt`. -/
def caseRow : FileRec := ⟨1, "C:", "C:\\foo.txt", "H1", "foo.txt", "H2", 3, 0, 0⟩

/-- A small concrete store for the C7 witness. -/
def topWitnessDb : Store :=
  { files := [⟨1, "C:", "C:\\a", "h", "a", "h", 5, 0, 0⟩,
              ⟨2, "C:", "C:\\b", "h", "b", "h", 9, 0, 0⟩,
              ⟨3, "C:", "C:\\c", "h", "c", "h", 7, 0, 0⟩]
    folders := [] }

def c1Cfg : Config := ⟨[], [], []⟩

def c1Entry : DirEntry :=
  ⟨["C:\\", "f.txt"], "C:\\", "f.txt", .ok ⟨"C:\\f.txt", 7, 0, 0⟩⟩

/-- An environment where every stored path fails to resolve with errno 22
(invalid argument — e.g. an embedded null byte). -/
def c1Env : SysEnv :=
  ⟨fun s => s, fun _ => Except.error 22, fun _ => Except.error 2⟩

def c3Cfg : Config := ⟨[], [], []⟩

def c3Entry : DirEntry :=
  ⟨["C:\\", "g.txt"], "C:\\", "g.txt", .ok ⟨"C:\\g.txt", 7, 0, 0⟩⟩

def c3Env : SysEnv :=
  ⟨fun s => s, fun _ => Except.error 22, fun _ => Except.error 2⟩

def w3Cfg : Config := ⟨[], [], []⟩

def w3Entry : DirEntry :=
  ⟨["C:\\", "h.txt"], "C:\\", "h.txt", .ok ⟨"C:\\h.txt", 7, 0, 0⟩⟩

/-- An environment whose path resolution fails with errno 5 (a non-22
`OSError`). -/
def w3Env : SysEnv :=
  ⟨fun s => s, fun _ => Except.error 5, fun _ => Except.error 2⟩

/-- The spec §8 scenario: `/root/A/a.txt` (10), `/root/A/b.txt` (20),
`/root/B/c.txt` (5). -/
def w1Scan : String → List DirEntry := fun _ =>
  [⟨["/", "root", "A", "a.txt"], "/", "a.txt", .ok ⟨"/root/A/a.txt", 10, 0, 0⟩⟩,
   ⟨["/", "root", "A", "b.txt"], "/", "b.txt", .ok ⟨"/root/A/b.txt", 20, 0, 0⟩⟩,
   ⟨["/", "root", "B", "c.txt"], "/", "c.txt", .ok ⟨"/root/B/c.txt", 5, 0, 0⟩⟩]

def w1Env : SysEnv :=
  { hashString := fun s => s
    parentOf := fun s =>
      if s = "/root/A/a.txt" ∨ s = "/root/A/b.txt" then .ok "/root/A"
      else if s = "/root/B/c.txt" then .ok "/root/B"
      else .error 2
    folderMeta := fun f =>
      if f = "/root/A" then .ok ⟨"/root/A", "A", 0, 0⟩
      else if f = "/root/B" then .ok ⟨"/root/B", "B", 0, 0⟩
      else .error 2 }

def w1Cfg : Config := ⟨[], [], []⟩

def w1RecA : FolderRecord := ⟨"/root/A", "/root/A", "A", "A", 30, 0, 0⟩

def w1RecB : FolderRecord := ⟨"/root/B", "/root/B", "B", "B", 5, 0, 0⟩

def w2Scan : String → List DirEntry := fun _ =>
  [⟨["/", "root", "A", "a.txt"], "/", "a.txt", .ok ⟨"/root/A/a.txt", 10, 0, 0⟩⟩,
   ⟨["/", "root", "A", "b.txt"], "/", "b.txt", .ok ⟨"/root/A/b.txt", 20, 0, 0⟩⟩,
   ⟨["/", "root", "B", "c.txt"], "/", "c.txt", .ok ⟨"/root/B/c.txt", 5, 0, 0⟩⟩]

def w2Env : SysEnv :=
  { hashString := fun s => s
    parentOf := fun s =>
      if s = "/root/A/a.txt" ∨ s = "/root/A/b.txt" then .ok "/root/A"
      else if s = "/root/B/c.txt" then .ok "/root/B"
      else .error 2
    folderMeta := fun f =>
      if f = "/root/A" then .ok ⟨"/root/A", "A", 0, 0⟩
      else if f = "/root/B" then .ok ⟨"/root/B", "B", 0, 0⟩
      else .error 2 }

def w2Cfg : Config := ⟨[], [], []⟩

def w2RecA : FolderRecord := ⟨"/root/A", "/root/A", "A", "A", 30, 0, 0⟩

def w2RecB : FolderRecord := ⟨"/root/B", "/root/B", "B", "B", 5, 0, 0⟩

/-- A configuration whose only available drive is also excluded. -/
def w6Cfg : Config := ⟨["C:"], [], []⟩

def w6Env : SysEnv :=
  ⟨fun s => s, fun _ => Except.error 2, fun _ => Except.error 2⟩

/-- An entry under the recycle bin, with perfectly readable metadata. -/
def reservedEntryW : DirEntry :=
  ⟨["C:\\", "$RECYCLE.BIN", "x.txt"], "C:\\", "x.txt",
    .ok ⟨"C:\\$RECYCLE.BIN\\x.txt", 99, 0, 0⟩⟩

/-- A one-component path (a bare drive root). -/
def shortEntryW : DirEntry :=
  ⟨["C:\\"], "C:\\", "C:\\", .ok ⟨"C:\\", 7, 0, 0⟩⟩

/-! ## Character-level facts about the LIKE matcher -/

lemma charToNat_ofNat_small {n : Nat} (h : n < 55296) : (Char.ofNat n).toNat = n := by
  rw [Char.ofNat, dif_pos]
  · simp [Char.ofNatAux, Char.toNat, UInt32.ofNat', UInt32.toNat, BitVec.toNat_ofNatLt]
  · exact Or.inl (by exact_mod_cast h)

/-- ASCII case folding cannot produce (or consume) a character that is
neither an upper- nor a lower-case ASCII letter — in particular the
wildcard meta-characters `%` and `_` are fixed points. -/
lemma asciiLower_eq_of_nonletter {x : Char} (h1 : x.toNat < 65 ∨ 90 < x.toNat)
    (h2 : x.toNat < 97 ∨ 122 < x.toNat) (p : Char) : asciiLower p = x ↔ p = x := by
  unfold asciiLower Char.toLower
  show (if p.toNat ≥ 65 ∧ p.toNat ≤ 90 then Char.ofNat (p.toNat + 32) else p) = x ↔ p = x
  split
  · rename_i hg
    constructor
    · intro h
      exfalso
      have hsm := charToNat_ofNat_small (n := p.toNat + 32) (by omega)
      rw [h] at hsm
      omega
    · intro h
      subst h
      omega
  · exact Iff.rfl

lemma asciiLower_pct : asciiLower '%' = '%' := rfl

lemma asciiLower_us : asciiLower '_' = '_' := rfl

lemma likeCharEq_false_lower (p c : Char) :
    likeCharEq false p c = likeCharEq true (asciiLower p) (asciiLower c) := rfl

/-- Default-mode `LIKE` is exactly case-sensitive `LIKE` after ASCII
case-folding both the pattern and the text: the case-insensitivity of the
default matcher. -/
lemma likeMatch_insensitive (pat text : List Char) :
    likeMatch false pat text =
      likeMatch true (pat.map asciiLower) (text.map asciiLower) := by
  refine likeMatch.induct false
    (fun pat text => likeMatch false pat text =
      likeMatch true (pat.map asciiLower) (text.map asciiLower))
    ?_ ?_ ?_ ?_ ?_ pat text
  · intro ts
    cases ts <;> simp [likeMatch]
  · intro ps ts ih1 ih2
    cases ts with
    | nil =>
      simp only [List.map_cons, List.map_nil, likeMatch, asciiLower_pct, if_pos rfl,
        ite_true, eq_self_iff_true] at ih1 ⊢
      rw [ih1]
    | cons t ts' =>
      simp only [List.map_cons, likeMatch, asciiLower_pct, if_pos rfl,
        ite_true, eq_self_iff_true] at ih1 ih2 ⊢
      rw [ih1, ih2]
  · intro p ps hp
    have hfp : ¬ asciiLower p = '%' := fun h =>
      hp ((asciiLower_eq_of_nonletter (by decide) (by decide) p).mp h)
    simp only [List.map_cons, List.map_nil, likeMatch, if_neg hp, if_neg hfp]
  · intro ps head ts' _ ih
    have hfp : ¬ asciiLower '_' = '%' := by decide
    have h2 : ¬ ('_' : Char) = '%' := by decide
    simp only [List.map_cons, likeMatch, if_neg hfp, asciiLower_us, if_neg h2,
      if_pos rfl, ite_true, eq_self_iff_true]
    exact ih
  · intro p ps hp head ts' hu ih
    have hfp : ¬ asciiLower p = '%' := fun h =>
      hp ((asciiLower_eq_of_nonletter (by decide) (by decide) p).mp h)
    have hfu : ¬ asciiLower p = '_' := fun h =>
      hu ((asciiLower_eq_of_nonletter (by decide) (by decide) p).mp h)
    simp only [List.map_cons, likeMatch, if_neg hp, if_neg hfp, if_neg hu, if_neg hfu]
    rw [ih, likeCharEq_false_lower]

lemma replaceStar_eq_map (l : List Char) :
    replaceStar l = l.map (fun c => if c = '*' then '%' else c) := by
  induction l with
  | nil => rfl
  | cons c cs ih => simp [replaceStar, ih]

/-! ## Claim C4 -/

/-- C4: the query engine replaces every `*` of the raw search string with
the store's multi-character wildcard `%` and touches no other character
(literal `%`/`_` pass through untranslated and unescaped); in exact mode
it returns exactly the rows whose `name` or `fullpath` equals the
substituted input (SQLite `=`, BINARY collation); in wildcard mode exactly
the rows whose `name` or `fullpath` LIKE-matches it under the current
`case_sensitive_like` state. -/
theorem find_wildcard_translation_and_matching :
    (∀ s : String,
        (substWildcards s).data =
          s.data.map (fun c => if c = '*' then '%' else c)) ∧
    (∀ (rows : List FileRec) (s : String) (cs : Bool) (r : FileRec),
        r ∈ (find rows s true cs).List ↔
          r ∈ rows ∧ (r.name = substWildcards s ∨ r.fullpath = substWildcards s)) ∧
    (∀ (rows : List FileRec) (s : String) (cs : Bool) (r : FileRec),
        r ∈ (find rows s false cs).List ↔
          r ∈ rows ∧ (sqliteLike cs (substWildcards s) r.name = true ∨
            sqliteLike cs (substWildcards s) r.fullpath = true)) := by
  refine ⟨fun s => replaceStar_eq_map s.data, ?_, ?_⟩
  · intro rows s cs r
    simp [find, List.mem_filter, exactRowMatch]
  · intro rows s cs r
    simp [find, List.mem_filter, likeRowMatch]

/-! ## Claim C5 -/

unseal likeMatch in
/-- C5 is false as stated: searching `"FOO"` without the case-sensitive
flag does *not* match the stored entry named `"foo.txt"` (wildcard mode:
a pattern without wildcards must LIKE-match the whole string), and exact
mode is not case-insensitive either — `"FOO.TXT"` without the flag fails
to match `"foo.txt"` because SQLite `=` compares with the BINARY
collation, which `PRAGMA case_sensitive_like` does not affect. -/
theorem find_case_insensitivity_refuted :
    (find [caseRow] "FOO" false false).Count = 0 ∧
    (find [caseRow] "FOO.TXT" true false).Count = 0 := by
  constructor <;> decide

unseal likeMatch in
/-- C5 (amended): without the flag, *wildcard-mode* matching is
case-insensitive for ASCII (it equals case-sensitive matching after
case-folding pattern and text — e.g. `"FOO*"` matches the stored
`"foo.txt"`); with the flag set, wildcard matching is case-sensitive (the
same search no longer matches); exact mode compares case-sensitively
regardless of the flag (the flag changes the matched row set only in
wildcard mode). -/
theorem find_case_sensitivity_amended :
    (∀ pat text : List Char,
        likeMatch false pat text =
          likeMatch true (pat.map asciiLower) (text.map asciiLower)) ∧
    (∀ (rows : List FileRec) (s : String) (cs : Bool),
        (find rows s true cs).List = (find rows s true false).List) ∧
    ((find [caseRow] "FOO*" false false).Count = 1 ∧
      (find [caseRow] "FOO*" false true).Count = 0) ∧
    ((find [caseRow] "foo.txt" true false).Count = 1 ∧
      (find [caseRow] "foo.txt" true true).Count = 1) := by
  refine ⟨likeMatch_insensitive, ?_, by decide, by decide⟩
  intro rows s cs
  simp [find]

/-! ## Claim C9 -/

/-- C9: for every non-negative duration, the rendered string is the
`<n>d<n>h<n>m<n>s` form with the leading zero-valued units (days, then
hours, then minutes) dropped, falling back to whole milliseconds
(`<n>ms`) for durations strictly under one second — the code's
branch chain equals the spec-shaped rendering. -/
theorem pretty_time_delta_spec (q : ℚ) (hq : 0 ≤ q) :
    pretty_time_delta q = pretty_time_spec q := by
  have hpy : pyTrunc q = ⌊q⌋ := if_pos hq
  by_cases h1 : q < 1
  · have hfl : ⌊q⌋ = 0 := Int.floor_eq_zero_iff.mpr ⟨hq, h1⟩
    simp [pretty_time_delta, pretty_time_spec, hpy, hfl, if_pos h1, Int.zero_fdiv,
      Int.zero_fmod]
  · have hfl : 1 ≤ ⌊q⌋ := by
      rw [Int.le_floor]
      exact_mod_cast not_lt.mp h1
    simp only [pretty_time_delta, pretty_time_spec, hpy, if_neg h1]
    generalize hgen : ⌊q⌋ = n at hfl
    have e1 : n.fdiv 86400 = n / 86400 := Int.fdiv_eq_ediv n (by omega)
    have e2 : n.fmod 86400 = n % 86400 := Int.fmod_eq_emod n (by omega)
    have e3 : (n % 86400).fdiv 3600 = (n % 86400) / 3600 := Int.fdiv_eq_ediv _ (by omega)
    have e4 : (n % 86400).fmod 3600 = (n % 86400) % 3600 := Int.fmod_eq_emod _ (by omega)
    have e5 : ((n % 86400) % 3600).fdiv 60 = ((n % 86400) % 3600) / 60 :=
      Int.fdiv_eq_ediv _ (by omega)
    have e6 : ((n % 86400) % 3600).fmod 60 = ((n % 86400) % 3600) % 60 :=
      Int.fmod_eq_emod _ (by omega)
    rw [e1, e2, e3, e4, e5, e6]
    by_cases hd : n / 86400 > 0
    · rw [if_pos hd]
      have h0 : ¬ ((n / 86400 : ℤ) == 0) = true := by simp; omega
      simp [List.dropWhile_cons, h0, String.join, String.append_assoc]
    · rw [if_neg hd]
      have hd0 : ((n / 86400 : ℤ) == 0) = true := by simp; omega
      by_cases hh : (n % 86400) / 3600 > 0
      · rw [if_pos hh]
        have h0 : ¬ (((n % 86400) / 3600 : ℤ) == 0) = true := by simp; omega
        simp [List.dropWhile_cons, hd0, h0, String.join, String.append_assoc]
      · rw [if_neg hh]
        have hh0 : (((n % 86400) / 3600 : ℤ) == 0) = true := by simp; omega
        by_cases hm : ((n % 86400) % 3600) / 60 > 0
        · rw [if_pos hm]
          have h0 : ¬ ((((n % 86400) % 3600) / 60 : ℤ) == 0) = true := by simp; omega
          simp [List.dropWhile_cons, hd0, hh0, h0, String.join, String.append_assoc]
        · rw [if_neg hm]
          have hm0 : ((((n % 86400) % 3600) / 60 : ℤ) == 0) = true := by simp; omega
          by_cases hs : ((n % 86400) % 3600) % 60 > 0
          · rw [if_pos hs]
            simp [List.dropWhile_cons, hd0, hh0, hm0, String.join]
          · omega

/-- Witness for C9 at the concrete duration 3661 s (= 1h1m1s). -/
theorem pretty_time_delta_spec_witness :
    (0 : ℚ) ≤ 3661 ∧ pretty_time_delta 3661 = pretty_time_spec 3661 :=
  ⟨by norm_num, pretty_time_delta_spec 3661 (by norm_num)⟩

/-! ## Claim C10 -/

lemma formatSizes_eq_none (l : List (Nat × String)) :
    formatSizes l = none ↔ ∃ p ∈ l, sizeToIECString p.1 = none := by
  induction l with
  | nil => simp [formatSizes]
  | cons a l ih =>
    rw [formatSizes]
    cases hfa : sizeToIECString a.1 with
    | none => simp [hfa]
    | some b =>
      show Option.map (fun rest => b :: rest) (formatSizes l) = none ↔ _
      rw [Option.map_eq_none', ih]
      constructor
      · rintro ⟨p, hp, hnp⟩
        exact ⟨p, List.mem_cons_of_mem a hp, hnp⟩
      · rintro ⟨p, hp, hnp⟩
        rcases List.mem_cons.mp hp with hh | hh
        · subst hh
          rw [hfa] at hnp
          exact absurd hnp (by simp)
        · exact ⟨p, hh, hnp⟩

/-- C10: the IEC formatter is partial exactly at size 0 — `math.log(0, 1024)`
raises, so `sizeToIECString` fails iff its input is 0 (it is total for
sizes ≥ 1) — and a `top` listing fails to print iff its result set
contains a zero-size record. -/
theorem sizeToIEC_partiality :
    (∀ n : Nat, sizeToIECString n = none ↔ n = 0) ∧
    (∀ (db : Store) (t : TopKind) (top_max : Nat) (ascending : Bool),
        topPrintLines db t top_max ascending = none ↔
          ∃ p ∈ top db t top_max ascending, p.1 = 0) := by
  have hnone : ∀ n : Nat, sizeToIECString n = none ↔ n = 0 := by
    intro n
    unfold sizeToIECString
    split
    · simp_all
    · simp_all
  refine ⟨hnone, ?_⟩
  intro db t top_max ascending
  unfold topPrintLines
  rw [formatSizes_eq_none]
  constructor
  · rintro ⟨p, hp, hnp⟩
    exact ⟨p, hp, (hnone p.1).mp hnp⟩
  · rintro ⟨p, hp, hz⟩
    exact ⟨p, hp, (hnone p.1).mpr hz⟩

/-! ## Claim C7 -/

/-- C7: for both kinds, every limit and both sort directions, `top`
returns at most `top_max` records, and consecutive results are ordered by
size — descending (`result[i+1].size ≤ result[i].size`) by default,
ascending with the flag. -/
theorem top_limit_and_sorted (db : Store) (t : TopKind) (top_max : Nat)
    (ascending : Bool) :
    (top db t top_max ascending).length ≤ top_max ∧
    ∀ i : Nat, ∀ h : i + 1 < (top db t top_max ascending).length,
      (ascending = false →
        ((top db t top_max ascending).get ⟨i + 1, h⟩).1 ≤
          ((top db t top_max ascending).get ⟨i, Nat.lt_of_succ_lt h⟩).1) ∧
      (ascending = true →
        ((top db t top_max ascending).get ⟨i, Nat.lt_of_succ_lt h⟩).1 ≤
          ((top db t top_max ascending).get ⟨i + 1, h⟩).1) := by
  cases ascending with
  | false =>
    constructor
    · simp only [top]
      rw [List.length_take]
      exact inf_le_left
    · intro i h
      have hs : List.Sorted sizeDesc (top db t top_max false) := by
        show List.Pairwise sizeDesc (top db t top_max false)
        exact List.Pairwise.sublist (List.take_sublist _ _)
          (List.sorted_insertionSort sizeDesc _)
      refine ⟨fun _ => ?_, fun hc => by simp at hc⟩
      exact hs.rel_get_of_lt (by simp)
  | true =>
    constructor
    · simp only [top]
      rw [List.length_take]
      exact inf_le_left
    · intro i h
      have hs : List.Sorted sizeAsc (top db t top_max true) := by
        show List.Pairwise sizeAsc (top db t top_max true)
        exact List.Pairwise.sublist (List.take_sublist _ _)
          (List.sorted_insertionSort sizeAsc _)
      refine ⟨fun hc => by simp at hc, fun _ => ?_⟩
      exact hs.rel_get_of_lt (by simp)

/-- Witness for C7: a three-row store queried with limit 2, descending. -/
theorem top_limit_and_sorted_witness :
    (top topWitnessDb .files 2 false).length ≤ 2 ∧
    ((top topWitnessDb .files 2 false).get ⟨1, by decide⟩).1 ≤
      ((top topWitnessDb .files 2 false).get ⟨0, by decide⟩).1 :=
  ⟨(top_limit_and_sorted topWitnessDb .files 2 false).1,
   ((top_limit_and_sorted topWitnessDb .files 2 false).2 0 (by decide)).1 rfl⟩


/-! ## Per-drive scan: facts for the reserved-directory skip -/

lemma indexSingleDrive_append (hashString : String → String)
    (l1 l2 : List DirEntry) :
    indexSingleDrive hashString (l1 ++ l2) =
      indexSingleDrive hashString l1 ++ indexSingleDrive hashString l2 := by
  induction l1 with
  | nil => rfl
  | cons e es ih =>
    simp only [List.cons_append, indexSingleDrive]
    by_cases hc : e.parts.length ≥ 2 ∧ e.parts.getD 1 "" ∈ reservedNames
    · rw [if_pos hc, if_pos hc]
      exact ih
    · rw [if_neg hc, if_neg hc]
      cases e.stat with
      | ok m => exact congrArg (List.cons (rowOf hashString e m)) ih
      | error _ => exact ih

/-! ## Claim C8 -/

/-- C8: an entry with at least two path components whose second component
is in the fixed exclusion set `{$RECYCLE.BIN, System Volume Information}`
is never inserted, whatever the outcome of its OS calls would have been
(the entry and its `stat` field are arbitrary); an entry with fewer than
two components is never subject to the check — it is inserted whenever its
OS calls succeed. -/
theorem reserved_dirs_always_skipped :
    (∀ (hashString : String → String) (pre post : List DirEntry) (e : DirEntry),
        e.parts.length ≥ 2 → e.parts.getD 1 "" ∈ reservedNames →
        indexSingleDrive hashString (pre ++ e :: post) =
          indexSingleDrive hashString (pre ++ post)) ∧
    (∀ (hashString : String → String) (pre post : List DirEntry) (e : DirEntry)
        (m : EntryMeta),
        e.parts.length < 2 → e.stat = .ok m →
        indexSingleDrive hashString (pre ++ e :: post) =
          indexSingleDrive hashString pre ++
            rowOf hashString e m :: indexSingleDrive hashString post) := by
  constructor
  · intro hashString pre post e h2 hres
    have hone : indexSingleDrive hashString (e :: post) =
        indexSingleDrive hashString post := by
      rw [indexSingleDrive, if_pos ⟨h2, hres⟩]
    rw [indexSingleDrive_append, hone, ← indexSingleDrive_append]
  · intro hashString pre post e m hlen hstat
    have hone : indexSingleDrive hashString (e :: post) =
        rowOf hashString e m :: indexSingleDrive hashString post := by
      rw [indexSingleDrive, if_neg (fun hc => absurd hc.1 (by omega)), hstat]
    rw [indexSingleDrive_append, hone]

/-- Witness for C8: a readable file inside `$RECYCLE.BIN` is skipped; a
one-component path is inserted despite the check. -/
theorem reserved_dirs_always_skipped_witness :
    reservedEntryW.parts.length ≥ 2 ∧
    reservedEntryW.parts.getD 1 "" ∈ reservedNames ∧
    indexSingleDrive (fun s => s) [reservedEntryW] = [] ∧
    shortEntryW.parts.length < 2 ∧
    indexSingleDrive (fun s => s) [shortEntryW] =
      [rowOf (fun s => s) shortEntryW ⟨"C:\\", 7, 0, 0⟩] := by
  refine ⟨by decide, by decide, ?_, by decide, ?_⟩
  · exact reserved_dirs_always_skipped.1 (fun s => s) [] [] reservedEntryW
      (by decide) (by decide)
  · exact reserved_dirs_always_skipped.2 (fun s => s) [] [] shortEntryW
      ⟨"C:\\", 7, 0, 0⟩ (by decide) rfl

/-! ## Claim C6 -/

/-- C6: the resolved root set is exactly
(available drives − excluded) ∩ whitelist-when-non-empty, with every
custom location added unconditionally (membership characterisation over
sanitised names); and the run ends in `noRoots` iff that set is empty, in
which case the store-operation trace is empty — nothing is modified. -/
theorem roots_resolution_and_noroots_guard :
    (∀ (cfg : Config) (allDrives : List String) (d : String),
        d ∈ resolvedRoots cfg allDrives ↔
          d ∈ cfg.customPlaces ∨
            (d ∈ sanitizeDriveList allDrives ∧
              d ∉ sanitizeDriveList cfg.ignoredDrives ∧
              (sanitizeDriveList cfg.whitelistedDrives ≠ [] →
                d ∈ sanitizeDriveList cfg.whitelistedDrives))) ∧
    (∀ (cfg : Config) (allDrives : List String) (dbExists : Bool)
        (scanEntries : String → List DirEntry) (env : SysEnv),
        ((indexDrives cfg allDrives dbExists scanEntries env).2 =
            IndexOutcome.noRoots ↔ resolvedRoots cfg allDrives = []) ∧
        ((indexDrives cfg allDrives dbExists scanEntries env).2 =
            IndexOutcome.noRoots →
          (indexDrives cfg allDrives dbExists scanEntries env).1 = [])) := by
  constructor
  · intro cfg allDrives d
    unfold resolvedRoots getDriveRoots
    by_cases hw : (sanitizeDriveList cfg.whitelistedDrives).isEmpty
    · have hwl : sanitizeDriveList cfg.whitelistedDrives = [] :=
        List.isEmpty_iff.mp hw
      simp [hw, hwl, List.mem_dedup, List.mem_filter]
    · have hwl : sanitizeDriveList cfg.whitelistedDrives ≠ [] := by
        simpa [List.isEmpty_iff] using hw
      simp [hw, hwl, List.mem_dedup, List.mem_filter]
      tauto
  · intro cfg allDrives dbExists scanEntries env
    by_cases hr : (resolvedRoots cfg allDrives).isEmpty
    · have hrl : resolvedRoots cfg allDrives = [] := List.isEmpty_iff.mp hr
      simp [indexDrives, hr, hrl]
    · have hrl : resolvedRoots cfg allDrives ≠ [] := by
        simpa [List.isEmpty_iff] using hr
      simp only [indexDrives, hr, Bool.false_eq_true, if_false]
      rcases hagg : aggLoop env
          (indexedFiles env scanEntries (resolvedRoots cfg allDrives)) [] 0 with
        pe | fst
      · simp [hagg, hrl]
      · obtain ⟨fsizes, total⟩ := fst
        rcases hins : (folderInsertLoop env fsizes).2 with _ | fe
        · simp [hagg, hins, hrl]
        · simp [hagg, hins, hrl]

/-- Witness for C6: with `C:` the only available drive and also excluded,
the root set is empty and the aborting run leaves the trace empty. -/
theorem roots_resolution_and_noroots_guard_witness :
    resolvedRoots w6Cfg ["C:\\"] = [] ∧
    (indexDrives w6Cfg ["C:\\"] true (fun _ => []) w6Env).1 = [] :=
  ⟨by decide,
   ((roots_resolution_and_noroots_guard.2 w6Cfg ["C:\\"] true (fun _ => [])
     w6Env).2 (by decide))⟩

/-! ## Dictionary accumulation: facts about `bump` and `List.lookup` -/

lemma bump_lookup_self (k : String) (v : Nat) :
    ∀ acc : List (String × Nat),
      (bump acc k v).lookup k = some ((acc.lookup k).getD 0 + v) := by
  intro acc
  induction acc with
  | nil => simp [bump, List.lookup]
  | cons a rest ih =>
    obtain ⟨k1, v1⟩ := a
    rw [bump]
    by_cases hk : k1 = k
    · subst hk
      simp [List.lookup]
    · rw [if_neg hk]
      have hbk : (k == k1) = false := by
        simp [beq_iff_eq]
        exact fun h => hk h.symm
      simp [List.lookup, hbk, ih]

lemma bump_lookup_other (k : String) (v : Nat) (k' : String) (h : k' ≠ k) :
    ∀ acc : List (String × Nat),
      (bump acc k v).lookup k' = acc.lookup k' := by
  intro acc
  induction acc with
  | nil =>
    have : (k' == k) = false := by simp [beq_iff_eq, h]
    simp [bump, List.lookup, this]
  | cons a rest ih =>
    obtain ⟨k1, v1⟩ := a
    rw [bump]
    by_cases hk : k1 = k
    · subst hk
      have : (k' == k1) = false := by simp [beq_iff_eq, h]
      simp [List.lookup, this]
    · rw [if_neg hk]
      simp [List.lookup, ih]

lemma bump_keys_mem (k : String) (v : Nat) :
    ∀ (acc : List (String × Nat)) (x : String),
      x ∈ keysOf (bump acc k v) → x ∈ keysOf acc ∨ x = k := by
  intro acc
  induction acc with
  | nil => simp [bump, keysOf]
  | cons a rest ih =>
    obtain ⟨k1, v1⟩ := a
    intro x
    rw [bump]
    by_cases hk : k1 = k
    · subst hk
      simp [keysOf]
      tauto
    · rw [if_neg hk]
      simp only [keysOf, List.map_cons, List.mem_cons]
      rintro (hx | hx)
      · exact Or.inl (by simp [keysOf, hx])
      · rcases ih x hx with h1 | h1
        · exact Or.inl (by simp [keysOf] at h1 ⊢; tauto)
        · exact Or.inr h1

lemma bump_keys_nodup (k : String) (v : Nat) :
    ∀ acc : List (String × Nat),
      (keysOf acc).Nodup → (keysOf (bump acc k v)).Nodup := by
  intro acc
  induction acc with
  | nil => simp [bump, keysOf]
  | cons a rest ih =>
    obtain ⟨k1, v1⟩ := a
    intro hnd
    rw [bump]
    simp only [keysOf, List.map_cons, List.nodup_cons] at hnd
    by_cases hk : k1 = k
    · subst hk
      rw [if_pos rfl]
      simp only [keysOf, List.map_cons, List.nodup_cons]
      exact ⟨hnd.1, hnd.2⟩
    · rw [if_neg hk]
      simp only [keysOf, List.map_cons, List.nodup_cons]
      refine ⟨fun hin => ?_, ih hnd.2⟩
      rcases bump_keys_mem k v rest k1 hin with h1 | h1
      · exact hnd.1 h1
      · exact hk h1

lemma lookup_of_mem_nodup :
    ∀ (acc : List (String × Nat)) (k : String) (s : Nat),
      (keysOf acc).Nodup → (k, s) ∈ acc → acc.lookup k = some s := by
  intro acc
  induction acc with
  | nil => simp
  | cons a rest ih =>
    obtain ⟨k1, v1⟩ := a
    intro k s hnd hmem
    simp only [keysOf, List.map_cons, List.nodup_cons] at hnd
    rcases List.mem_cons.mp hmem with he | hmem2
    · injection he with h1 h2
      subst h1
      subst h2
      simp [List.lookup]
    · have hk : ¬ k = k1 := by
        intro h
        subst h
        exact hnd.1 (by simp [keysOf]; exact ⟨s, hmem2⟩)
      have hbk : (k == k1) = false := by simp [beq_iff_eq, hk]
      simp [List.lookup, hbk]
      exact ih k s hnd.2 hmem2

lemma lookup_some_mem :
    ∀ (acc : List (String × Nat)) (k : String) (s : Nat),
      acc.lookup k = some s → (k, s) ∈ acc := by
  intro acc
  induction acc with
  | nil => intro k s h; simp [List.lookup] at h
  | cons a rest ih =>
    obtain ⟨k1, v1⟩ := a
    intro k s h
    rw [List.lookup] at h
    cases hbeq : (k == k1) with
    | true =>
      rw [hbeq] at h
      simp only at h
      injection h with hv
      have hk : k = k1 := by simpa [beq_iff_eq] using hbeq
      subst hk
      subst hv
      exact List.mem_cons_self _ _
    | false =>
      rw [hbeq] at h
      simp only at h
      exact List.mem_cons_of_mem _ (ih k s h)

/-! ## The aggregation loop: totals, per-key sums, key sets -/

lemma aggLoop_ok_total (env : SysEnv) :
    ∀ (files : List FileValues) (acc : List (String × Nat)) (total : Nat)
      (out : List (String × Nat)) (t : Nat),
      aggLoop env files acc total = .ok (out, t) →
      t = total + sumSizes (files.filter (fun r => (parentKey env r).isSome)) := by
  intro files
  induction files with
  | nil =>
    intro acc total out t h
    rw [aggLoop] at h
    injection h with h
    injection h with h1 h2
    simp [sumSizes, ← h2]
  | cons r rs ih =>
    intro acc total out t h
    rw [aggLoop] at h
    cases hp : env.parentOf r.fullpath with
    | error e =>
      simp only [hp] at h
      by_cases he : e = 22
      · rw [if_pos he] at h
        have hfilter : ((parentKey env r).isSome : Bool) = false := by
          simp [parentKey, hp, Except.toOption]
        rw [List.filter_cons, hfilter]
        simpa using ih _ _ _ _ h
      · rw [if_neg he] at h
        exact absurd h (by simp)
    | ok k =>
      simp only [hp] at h
      have hfilter : ((parentKey env r).isSome : Bool) = true := by
        simp [parentKey, hp, Except.toOption]
      rw [List.filter_cons, hfilter]
      have := ih _ _ _ _ h
      simp only [if_true, sumSizes, List.map_cons, List.sum_cons] at this ⊢
      omega

lemma aggLoop_ok_lookup (env : SysEnv) :
    ∀ (files : List FileValues) (acc : List (String × Nat)) (total : Nat)
      (out : List (String × Nat)) (t : Nat),
      aggLoop env files acc total = .ok (out, t) →
      ∀ k : String,
        (out.lookup k).getD 0 =
          (acc.lookup k).getD 0 +
            sumSizes (files.filter (fun r => parentKey env r == some k)) := by
  intro files
  induction files with
  | nil =>
    intro acc total out t h k
    rw [aggLoop] at h
    injection h with h
    injection h with h1 h2
    simp [sumSizes, ← h1]
  | cons r rs ih =>
    intro acc total out t h k
    rw [aggLoop] at h
    cases hp : env.parentOf r.fullpath with
    | error e =>
      simp only [hp] at h
      by_cases he : e = 22
      · rw [if_pos he] at h
        have hfilter : (parentKey env r == some k) = false := by
          simp [parentKey, hp, Except.toOption]
        rw [List.filter_cons, hfilter]
        simpa using ih _ _ _ _ h k
      · rw [if_neg he] at h
        exact absurd h (by simp)
    | ok k2 =>
      simp only [hp] at h
      have hout := ih _ _ _ _ h k
      by_cases hk : k2 = k
      · subst hk
        have hfilter : (parentKey env r == some k2) = true := by
          simp [parentKey, hp, Except.toOption]
        rw [List.filter_cons, hfilter]
        rw [hout, bump_lookup_self]
        simp only [if_true, sumSizes, List.map_cons, List.sum_cons, Option.getD_some]
        omega
      · have hfilter : (parentKey env r == some k) = false := by
          simp [parentKey, hp, Except.toOption, hk]
        rw [List.filter_cons, hfilter]
        rw [hout, bump_lookup_other k2 r.size k (fun h => hk h.symm)]
        simp

lemma aggLoop_ok_key_mem (env : SysEnv) :
    ∀ (files : List FileValues) (acc : List (String × Nat)) (total : Nat)
      (out : List (String × Nat)) (t : Nat),
      aggLoop env files acc total = .ok (out, t) →
      ∀ k : String,
        ((out.lookup k).isSome : Bool) = true ↔
          ((acc.lookup k).isSome : Bool) = true ∨
            ∃ r ∈ files, parentKey env r = some k := by
  intro files
  induction files with
  | nil =>
    intro acc total out t h k
    rw [aggLoop] at h
    injection h with h
    injection h with h1 h2
    simp [← h1]
  | cons r rs ih =>
    intro acc total out t h k
    rw [aggLoop] at h
    cases hp : env.parentOf r.fullpath with
    | error e =>
      simp only [hp] at h
      by_cases he : e = 22
      · rw [if_pos he] at h
        rw [ih _ _ _ _ h k]
        have hpk : parentKey env r = none := by
          simp [parentKey, hp, Except.toOption]
        simp [hpk]
      · rw [if_neg he] at h
        exact absurd h (by simp)
    | ok k2 =>
      simp only [hp] at h
      have hpk : parentKey env r = some k2 := by
        simp [parentKey, hp, Except.toOption]
      rw [ih _ _ _ _ h k]
      by_cases hk : k2 = k
      · subst hk
        rw [bump_lookup_self]
        simp [hpk]
      · rw [bump_lookup_other k2 r.size k (fun h => hk h.symm)]
        simp only [List.mem_cons, hpk]
        constructor
        · rintro (h1 | ⟨r2, hr2, hpr2⟩)
          · exact Or.inl h1
          · exact Or.inr ⟨r2, Or.inr hr2, hpr2⟩
        · rintro (h1 | ⟨r2, hr2, hpr2⟩)
          · exact Or.inl h1
          · rcases hr2 with he | hm
            · subst he
              rw [hpk] at hpr2
              injection hpr2 with hco
              exact absurd hco hk
            · exact Or.inr ⟨r2, hm, hpr2⟩

lemma aggLoop_ok_nodup (env : SysEnv) :
    ∀ (files : List FileValues) (acc : List (String × Nat)) (total : Nat)
      (out : List (String × Nat)) (t : Nat),
      aggLoop env files acc total = .ok (out, t) →
      (keysOf acc).Nodup → (keysOf out).Nodup := by
  intro files
  induction files with
  | nil =>
    intro acc total out t h hnd
    rw [aggLoop] at h
    injection h with h
    injection h with h1 h2
    rw [← h1]
    exact hnd
  | cons r rs ih =>
    intro acc total out t h hnd
    rw [aggLoop] at h
    cases hp : env.parentOf r.fullpath with
    | error e =>
      simp only [hp] at h
      by_cases he : e = 22
      · rw [if_pos he] at h
        exact ih _ _ _ _ h hnd
      · rw [if_neg he] at h
        exact absurd h (by simp)
    | ok k2 =>
      simp only [hp] at h
      exact ih _ _ _ _ h (bump_keys_nodup k2 r.size acc hnd)

lemma aggLoop_error_iff (env : SysEnv) :
    ∀ (files : List FileValues) (acc : List (String × Nat)) (total : Nat),
      (∃ pe, aggLoop env files acc total = .error pe) ↔
        ∃ r ∈ files, ∃ e, env.parentOf r.fullpath = .error e ∧ e ≠ 22 := by
  intro files
  induction files with
  | nil =>
    intro acc total
    rw [aggLoop]
    simp
  | cons r rs ih =>
    intro acc total
    rw [aggLoop]
    cases hp : env.parentOf r.fullpath with
    | error e =>
      dsimp only
      by_cases he : e = 22
      · rw [if_pos he]
        rw [ih acc total]
        constructor
        · rintro ⟨r2, hr2, e2, hpe2, hne2⟩
          exact ⟨r2, List.mem_cons_of_mem r hr2, e2, hpe2, hne2⟩
        · rintro ⟨r2, hr2, e2, hpe2, hne2⟩
          rcases List.mem_cons.mp hr2 with hh | hh
          · subst hh
            rw [hp] at hpe2
            injection hpe2 with hee
            exact absurd (hee ▸ he) hne2
          · exact ⟨r2, hh, e2, hpe2, hne2⟩
      · rw [if_neg he]
        constructor
        · intro _
          exact ⟨r, List.mem_cons_self r rs, e, hp, he⟩
        · intro _
          exact ⟨(r.fullpath, e), rfl⟩
    | ok k =>
      dsimp only
      rw [ih (bump acc k r.size) (total + r.size)]
      constructor
      · rintro ⟨r2, hr2, e2, hpe2, hne2⟩
        exact ⟨r2, List.mem_cons_of_mem r hr2, e2, hpe2, hne2⟩
      · rintro ⟨r2, hr2, e2, hpe2, hne2⟩
        rcases List.mem_cons.mp hr2 with hh | hh
        · subst hh
          rw [hp] at hpe2
          exact absurd hpe2 (by simp)
        · exact ⟨r2, hh, e2, hpe2, hne2⟩

lemma aggLoop_error_elim (env : SysEnv) :
    ∀ (files : List FileValues) (acc : List (String × Nat)) (total : Nat)
      (p : String) (e : Nat),
      aggLoop env files acc total = .error (p, e) →
      (∃ r ∈ files, r.fullpath = p) ∧ env.parentOf p = .error e ∧ e ≠ 22 := by
  intro files
  induction files with
  | nil =>
    intro acc total p e h
    rw [aggLoop] at h
    exact absurd h (by simp)
  | cons r rs ih =>
    intro acc total p e h
    rw [aggLoop] at h
    cases hp : env.parentOf r.fullpath with
    | error e2 =>
      simp only [hp] at h
      by_cases he : e2 = 22
      · rw [if_pos he] at h
        obtain ⟨⟨r2, hr2, hfp⟩, hrest⟩ := ih _ _ _ _ h
        exact ⟨⟨r2, List.mem_cons_of_mem r hr2, hfp⟩, hrest⟩
      · rw [if_neg he] at h
        injection h with h
        injection h with h1 h2
        subst h1
        subst h2
        exact ⟨⟨r, List.mem_cons_self r rs, rfl⟩, hp, he⟩
    | ok k =>
      simp only [hp] at h
      obtain ⟨⟨r2, hr2, hfp⟩, hrest⟩ := ih _ _ _ _ h
      exact ⟨⟨r2, List.mem_cons_of_mem r hr2, hfp⟩, hrest⟩

/-! ## The folder-insert loop -/

lemma folderInsertLoop_none (env : SysEnv) :
    ∀ (fsizes : List (String × Nat)) (recs : List FolderRecord),
      folderInsertLoop env fsizes = (recs, none) →
      (∀ ks ∈ fsizes, ∃ m : FolderMeta, env.folderMeta ks.1 = .ok m) ∧
      (∀ rec ∈ recs, ∃ k s m, (k, s) ∈ fsizes ∧ env.folderMeta k = .ok m ∧
        rec.size = s ∧ rec.fullpath = m.resolved) := by
  intro fsizes
  induction fsizes with
  | nil =>
    intro recs h
    rw [folderInsertLoop] at h
    injection h with h1 h2
    subst h1
    simp
  | cons fs rest ih =>
    obtain ⟨f, sz⟩ := fs
    intro recs h
    rw [folderInsertLoop] at h
    cases hm : env.folderMeta f with
    | error e =>
      simp only [hm] at h
      injection h with h1 h2
      exact absurd h2.symm (by simp)
    | ok m =>
      simp only [hm] at h
      rcases hrest : folderInsertLoop env rest with ⟨recs2, err2⟩
      rw [hrest] at h
      injection h with h1 h2
      subst h2
      obtain ⟨hkeys, hrecs⟩ := ih recs2 hrest
      constructor
      · intro ks hks
        rcases List.mem_cons.mp hks with hh | hh
        · subst hh
          exact ⟨m, hm⟩
        · exact hkeys ks hh
      · intro rec hrec
        rw [← h1] at hrec
        rcases List.mem_cons.mp hrec with hh | hh
        · subst hh
          exact ⟨f, sz, m, List.mem_cons_self _ _, hm, rfl, rfl⟩
        · obtain ⟨k, s, m2, hmem, hmk, hsz, hfp⟩ := hrecs rec hh
          exact ⟨k, s, m2, List.mem_cons_of_mem _ hmem, hmk, hsz, hfp⟩

/-! ## Inversion of a whole run on its terminal state -/

lemma indexDrives_done_inv (cfg : Config) (allDrives : List String)
    (dbExists : Bool) (scanEntries : String → List DirEntry) (env : SysEnv)
    (frecs : List FolderRecord) (total : Nat)
    (h : (indexDrives cfg allDrives dbExists scanEntries env).2 =
      IndexOutcome.done frecs total) :
    ∃ fsizes,
      aggLoop env (indexedFiles env scanEntries (resolvedRoots cfg allDrives))
        [] 0 = .ok (fsizes, total) ∧
      folderInsertLoop env fsizes = (frecs, none) := by
  by_cases hr : (resolvedRoots cfg allDrives).isEmpty = true
  · simp only [indexDrives, hr, if_true] at h
    exact absurd h (by simp)
  · simp only [indexDrives, hr, if_false] at h
    rcases hagg : aggLoop env
        (indexedFiles env scanEntries (resolvedRoots cfg allDrives)) [] 0 with
      pe | fst
    · simp only [hagg] at h
      exact absurd h (by simp)
    · obtain ⟨fsizes, tot⟩ := fst
      simp only [hagg] at h
      rcases hins : folderInsertLoop env fsizes with ⟨recs2, err2⟩
      simp only [hins] at h
      cases err2 with
      | some fe =>
        simp only at h
        exact absurd h (by simp)
      | none =>
        simp only at h
        injection h with h1 h2
        subst h1
        subst h2
        exact ⟨fsizes, rfl, hins⟩

lemma indexDrives_fatal_inv (cfg : Config) (allDrives : List String)
    (dbExists : Bool) (scanEntries : String → List DirEntry) (env : SysEnv)
    (p : String) (e : Nat)
    (h : (indexDrives cfg allDrives dbExists scanEntries env).2 =
      IndexOutcome.aggFatal p e) :
    aggLoop env (indexedFiles env scanEntries (resolvedRoots cfg allDrives))
      [] 0 = .error (p, e) ∧
    (indexDrives cfg allDrives dbExists scanEntries env).1 =
      ((if dbExists then [StoreOp.deleteOldDb] else []) ++
        [StoreOp.createTables]) ++
        (indexedFiles env scanEntries (resolvedRoots cfg allDrives)).map
          StoreOp.insertFile := by
  by_cases hr : (resolvedRoots cfg allDrives).isEmpty = true
  · simp only [indexDrives, hr, if_true] at h
    exact absurd h (by simp)
  · rcases hagg : aggLoop env
        (indexedFiles env scanEntries (resolvedRoots cfg allDrives)) [] 0 with
      pe | fst
    · obtain ⟨p2, e2⟩ := pe
      simp only [indexDrives, hr, if_false, hagg] at h ⊢
      injection h with h1 h2
      subst h1
      subst h2
      exact ⟨rfl, rfl⟩
    · obtain ⟨fsizes, tot⟩ := fst
      simp only [indexDrives, hr, if_false, hagg] at h
      rcases hins : folderInsertLoop env fsizes with ⟨recs2, err2⟩
      simp only [hins] at h
      cases err2 with
      | some fe =>
        simp only at h
        exact absurd h (by simp)
      | none =>
        simp only at h
        exact absurd h (by simp)

lemma indexDrives_fatal_of_error (cfg : Config) (allDrives : List String)
    (dbExists : Bool) (scanEntries : String → List DirEntry) (env : SysEnv)
    (p : String) (e : Nat)
    (hr : ¬ (resolvedRoots cfg allDrives).isEmpty = true)
    (hagg : aggLoop env
      (indexedFiles env scanEntries (resolvedRoots cfg allDrives)) [] 0 =
        .error (p, e)) :
    (indexDrives cfg allDrives dbExists scanEntries env).2 =
      IndexOutcome.aggFatal p e := by
  unfold indexDrives
  rw [if_neg hr]
  simp only [hagg]

/-! ## Claim C1 -/

/-- C1 (amended): on a successful run, the `totalSize` meta value equals
the sum of `size` over the FileRecords whose stored path resolves during
the aggregation pass; records whose path construction raises `OSError`
errno 22 are silently excluded from the total. -/
theorem totalSize_sums_resolvable (cfg : Config) (allDrives : List String)
    (dbExists : Bool) (scanEntries : String → List DirEntry) (env : SysEnv)
    (frecs : List FolderRecord) (total : Nat)
    (hdone : (indexDrives cfg allDrives dbExists scanEntries env).2 =
      IndexOutcome.done frecs total) :
    total = sumSizes ((indexedFiles env scanEntries
      (resolvedRoots cfg allDrives)).filter
        (fun r => (parentKey env r).isSome)) := by
  obtain ⟨fsizes, hagg, _⟩ :=
    indexDrives_done_inv cfg allDrives dbExists scanEntries env frecs total hdone
  simpa using aggLoop_ok_total env _ [] 0 fsizes total hagg

/-- C1 is false as stated: a run whose only FileRecord has a stored path
that fails to resolve with errno 22 completes successfully with
`totalSize = 0`, while the sum of `size` over all FileRecords in the
files set is 7. -/
theorem totalSize_claim_refuted :
    (indexDrives c1Cfg ["D:\\"] false (fun _ => [c1Entry]) c1Env).2 =
      IndexOutcome.done [] 0 ∧
    sumSizes (indexedFiles c1Env (fun _ => [c1Entry])
      (resolvedRoots c1Cfg ["D:\\"])) = 7 := by
  constructor
  · decide
  · decide

/-- Witness for C1 (amended) at the spec §8 scenario, where every path
resolves: `totalSize = 35 = 10 + 20 + 5`. -/
theorem totalSize_sums_resolvable_witness :
    (indexDrives w1Cfg ["X:\\"] false w1Scan w1Env).2 =
      IndexOutcome.done [w1RecA, w1RecB] 35 ∧
    (35 : Nat) = sumSizes ((indexedFiles w1Env w1Scan
      (resolvedRoots w1Cfg ["X:\\"])).filter
        (fun r => (parentKey w1Env r).isSome)) :=
  ⟨by decide,
   totalSize_sums_resolvable w1Cfg ["X:\\"] false w1Scan w1Env
     [w1RecA, w1RecB] 35 (by decide)⟩

/-! ## Claim C3 -/

/-- C3 (amended): during the aggregation pass, a previously-recorded path
that fails to resolve with `OSError` errno 22 is *silently skipped*; for
any other `OSError` the run aborts (`aggFatal`), reporting an offending
path, and the aborted run has issued no folder insert and no `totalSize`
meta write — the store is left partially populated and unusable.
Precisely: the run aborts iff some record fails with a non-22 errno. -/
theorem aggregation_errno22_amended (cfg : Config) (allDrives : List String)
    (dbExists : Bool) (scanEntries : String → List DirEntry) (env : SysEnv) :
    ((∃ p e, (indexDrives cfg allDrives dbExists scanEntries env).2 =
        IndexOutcome.aggFatal p e) ↔
      ∃ r ∈ indexedFiles env scanEntries (resolvedRoots cfg allDrives),
        ∃ e, env.parentOf r.fullpath = .error e ∧ e ≠ 22) ∧
    (∀ p e, (indexDrives cfg allDrives dbExists scanEntries env).2 =
        IndexOutcome.aggFatal p e →
      ((∃ r ∈ indexedFiles env scanEntries (resolvedRoots cfg allDrives),
          r.fullpath = p) ∧ env.parentOf p = .error e ∧ e ≠ 22) ∧
      (∀ k v, StoreOp.setMeta k v ∉
        (indexDrives cfg allDrives dbExists scanEntries env).1) ∧
      (∀ f, StoreOp.insertFolder f ∉
        (indexDrives cfg allDrives dbExists scanEntries env).1)) := by
  constructor
  · constructor
    · rintro ⟨p, e, hfat⟩
      obtain ⟨hagg, _⟩ :=
        indexDrives_fatal_inv cfg allDrives dbExists scanEntries env p e hfat
      exact (aggLoop_error_iff env _ [] 0).mp ⟨(p, e), hagg⟩
    · rintro ⟨r, hr, e, hpe, hne⟩
      have hroots : ¬ (resolvedRoots cfg allDrives).isEmpty = true := by
        intro hemp
        have hnil : indexedFiles env scanEntries (resolvedRoots cfg allDrives) = [] := by
          rw [List.isEmpty_iff.mp hemp]
          rfl
        rw [hnil] at hr
        exact absurd hr (List.not_mem_nil r)
      obtain ⟨⟨p2, e2⟩, hagg⟩ :=
        (aggLoop_error_iff env _ [] 0).mpr ⟨r, hr, e, hpe, hne⟩
      exact ⟨p2, e2, indexDrives_fatal_of_error cfg allDrives dbExists
        scanEntries env p2 e2 hroots hagg⟩
  · intro p e hfat
    obtain ⟨hagg, htrace⟩ :=
      indexDrives_fatal_inv cfg allDrives dbExists scanEntries env p e hfat
    obtain ⟨hmem, hpe, hne⟩ := aggLoop_error_elim env _ [] 0 p e hagg
    refine ⟨⟨hmem, hpe, hne⟩, ?_, ?_⟩
    · intro k v hin
      rw [htrace] at hin
      rcases List.mem_append.mp hin with hin1 | hin1
      · rcases List.mem_append.mp hin1 with hin2 | hin2
        · split at hin2
          · simp at hin2
          · simp at hin2
        · simp at hin2
      · obtain ⟨x, _, hx⟩ := List.mem_map.mp hin1
        exact absurd hx (by simp)
    · intro f hin
      rw [htrace] at hin
      rcases List.mem_append.mp hin with hin1 | hin1
      · rcases List.mem_append.mp hin1 with hin2 | hin2
        · split at hin2
          · simp at hin2
          · simp at hin2
        · simp at hin2
      · obtain ⟨x, _, hx⟩ := List.mem_map.mp hin1
        exact absurd hx (by simp)

/-- C3 is false as stated: a record whose stored path cannot be resolved
(`OSError` errno 22) exists in the files set, yet the run completes
`done` — it is silently skipped, not reported, and the run does not
abort. -/
theorem aggregation_abort_claim_refuted :
    (∃ r ∈ indexedFiles c3Env (fun _ => [c3Entry]) (resolvedRoots c3Cfg ["D:\\"]),
        c3Env.parentOf r.fullpath = Except.error 22) ∧
    (indexDrives c3Cfg ["D:\\"] false (fun _ => [c3Entry]) c3Env).2 =
      IndexOutcome.done [] 0 := by
  refine ⟨⟨⟨"C:\\", "C:\\g.txt", "C:\\g.txt", "g.txt", "g.txt", 7, 0, 0⟩,
    by decide, rfl⟩, by decide⟩

/-- Witness for C3 (amended): a non-22 `OSError` (errno 5) aborts the run,
reports an offending path, and the trace holds no folder insert and no
`totalSize` write. -/
theorem aggregation_errno22_amended_witness :
    (indexDrives w3Cfg ["D:\\"] false (fun _ => [w3Entry]) w3Env).2 =
      IndexOutcome.aggFatal "C:\\h.txt" 5 ∧
    (((∃ r ∈ indexedFiles w3Env (fun _ => [w3Entry])
          (resolvedRoots w3Cfg ["D:\\"]), r.fullpath = "C:\\h.txt") ∧
      w3Env.parentOf "C:\\h.txt" = .error 5 ∧ (5 : Nat) ≠ 22) ∧
      (∀ k v, StoreOp.setMeta k v ∉
        (indexDrives w3Cfg ["D:\\"] false (fun _ => [w3Entry]) w3Env).1) ∧
      (∀ f, StoreOp.insertFolder f ∉
        (indexDrives w3Cfg ["D:\\"] false (fun _ => [w3Entry]) w3Env).1)) :=
  ⟨by decide,
   (aggregation_errno22_amended w3Cfg ["D:\\"] false (fun _ => [w3Entry])
     w3Env).2 "C:\\h.txt" 5 (by decide)⟩

/-! ## Claim C2 -/

/-- C2: on a successful run in which folder-path resolution does not merge
two distinct parent keys of the run (`hinj` — the realistic situation,
since a prefix of an already-resolved stored path resolves to itself),
every FolderRecord's `size` is the one-level sum of the sizes of exactly
those FileRecords whose resolved parent equals the folder's path, and
every FolderRecord has at least one such FileRecord — folders exist only
for parent directories holding at least one indexed file. -/
theorem folder_sizes_one_level (cfg : Config) (allDrives : List String)
    (dbExists : Bool) (scanEntries : String → List DirEntry) (env : SysEnv)
    (frecs : List FolderRecord) (total : Nat)
    (hdone : (indexDrives cfg allDrives dbExists scanEntries env).2 =
      IndexOutcome.done frecs total)
    (hinj : ∀ k1 ∈ aggKeys env (indexedFiles env scanEntries
        (resolvedRoots cfg allDrives)),
      ∀ k2 ∈ aggKeys env (indexedFiles env scanEntries
        (resolvedRoots cfg allDrives)),
      folderResolvedOf env k1 = folderResolvedOf env k2 → k1 = k2) :
    ∀ rec ∈ frecs,
      rec.size = sumSizes ((indexedFiles env scanEntries
        (resolvedRoots cfg allDrives)).filter
          (fun r => resolvedParentPath env r == some rec.fullpath)) ∧
      ∃ r ∈ indexedFiles env scanEntries (resolvedRoots cfg allDrives),
        resolvedParentPath env r = some rec.fullpath := by
  obtain ⟨fsizes, hagg, hins⟩ :=
    indexDrives_done_inv cfg allDrives dbExists scanEntries env frecs total hdone
  obtain ⟨hkeysok, hrecs⟩ := folderInsertLoop_none env fsizes frecs hins
  intro rec hrec
  obtain ⟨k, s, m, hmem, hmk, hsz, hfp⟩ := hrecs rec hrec
  have hnodup : (keysOf fsizes).Nodup :=
    aggLoop_ok_nodup env _ [] 0 fsizes total hagg (by simp [keysOf])
  have hlook : fsizes.lookup k = some s := lookup_of_mem_nodup fsizes k s hnodup hmem
  have hsum := aggLoop_ok_lookup env _ [] 0 fsizes total hagg k
  rw [hlook] at hsum
  have hs_eq : s = sumSizes ((indexedFiles env scanEntries
      (resolvedRoots cfg allDrives)).filter
        (fun r => parentKey env r == some k)) := by
    simpa using hsum
  have hksome : (fsizes.lookup k).isSome = true := by rw [hlook]; rfl
  have hkmem := (aggLoop_ok_key_mem env _ [] 0 fsizes total hagg k).mp hksome
  have hkmem2 : ∃ r ∈ indexedFiles env scanEntries (resolvedRoots cfg allDrives),
      parentKey env r = some k := by
    rcases hkmem with h1 | h1
    · simp at h1
    · exact h1
  obtain ⟨r0, hr0, hpk0⟩ := hkmem2
  have hkInAgg : k ∈ aggKeys env (indexedFiles env scanEntries
      (resolvedRoots cfg allDrives)) :=
    List.mem_filterMap.mpr ⟨r0, hr0, hpk0⟩
  have hp0 : env.parentOf r0.fullpath = .ok k := by
    unfold parentKey at hpk0
    cases hpo : env.parentOf r0.fullpath with
    | error e => rw [hpo] at hpk0; simp [Except.toOption] at hpk0
    | ok kk =>
      rw [hpo] at hpk0
      simp [Except.toOption] at hpk0
      rw [hpk0]
  have hrpp0 : resolvedParentPath env r0 = some rec.fullpath := by
    rw [hfp]
    unfold resolvedParentPath
    rw [hp0]
    dsimp only
    unfold folderResolvedOf
    rw [hmk]
    rfl
  refine ⟨?_, ⟨r0, hr0, hrpp0⟩⟩
  have hfeq : (indexedFiles env scanEntries (resolvedRoots cfg allDrives)).filter
        (fun r => resolvedParentPath env r == some rec.fullpath) =
      (indexedFiles env scanEntries (resolvedRoots cfg allDrives)).filter
        (fun r => parentKey env r == some k) := by
    apply List.filter_congr
    intro r hr
    cases hpr : env.parentOf r.fullpath with
    | error e =>
      have h1 : resolvedParentPath env r = none := by
        unfold resolvedParentPath
        rw [hpr]
      have h2 : parentKey env r = none := by
        unfold parentKey
        rw [hpr]
        rfl
      rw [h1, h2]
      rfl
    | ok k2 =>
      have hpkr : parentKey env r = some k2 := by
        unfold parentKey
        rw [hpr]
        rfl
      have hk2InAgg : k2 ∈ aggKeys env (indexedFiles env scanEntries
          (resolvedRoots cfg allDrives)) :=
        List.mem_filterMap.mpr ⟨r, hr, hpkr⟩
      have hk2some : ((fsizes.lookup k2).isSome : Bool) = true :=
        (aggLoop_ok_key_mem env _ [] 0 fsizes total hagg k2).mpr
          (Or.inr ⟨r, hr, hpkr⟩)
      obtain ⟨s2, hlk2⟩ := Option.isSome_iff_exists.mp hk2some
      have hmem2 : (k2, s2) ∈ fsizes := lookup_some_mem fsizes k2 s2 hlk2
      obtain ⟨m2, hm2a⟩ := hkeysok (k2, s2) hmem2
      have hm2 : env.folderMeta k2 = Except.ok m2 := hm2a
      have hrpp : resolvedParentPath env r = some m2.resolved := by
        unfold resolvedParentPath
        rw [hpr]
        dsimp only
        unfold folderResolvedOf
        rw [hm2]
        rfl
      rw [hrpp, hpkr, hfp]
      by_cases hkk : k2 = k
      · subst hkk
        rw [hmk] at hm2
        injection hm2 with hmm
        rw [hmm]
        simp
      · have hne : m2.resolved ≠ m.resolved := fun heq =>
          hkk (hinj k2 hk2InAgg k hkInAgg (by
            unfold folderResolvedOf
            rw [hm2, hmk]
            simp [Except.toOption, heq]))
        simp [hne, hkk]
  rw [hfeq, hsz]
  exact hs_eq

/-- Witness for C2 at the spec §8 scenario: the `/root/A` FolderRecord has
size 30 — the one-level sum of its two direct children — and at least one
FileRecord resolves into it. -/
theorem folder_sizes_one_level_witness :
    (indexDrives w2Cfg ["X:\\"] false w2Scan w2Env).2 =
      IndexOutcome.done [w2RecA, w2RecB] 35 ∧
    (w2RecA.size = sumSizes ((indexedFiles w2Env w2Scan
        (resolvedRoots w2Cfg ["X:\\"])).filter
          (fun r => resolvedParentPath w2Env r == some w2RecA.fullpath)) ∧
      ∃ r ∈ indexedFiles w2Env w2Scan (resolvedRoots w2Cfg ["X:\\"]),
        resolvedParentPath w2Env r = some w2RecA.fullpath) :=
  ⟨by decide,
   folder_sizes_one_level w2Cfg ["X:\\"] false w2Scan w2Env [w2RecA, w2RecB]
     35 (by decide) (by decide) w2RecA (by decide)⟩

end DfindModel

